import Mathlib

/-!
Verification of the Pok Deng multiplayer card game (app.py,
storage_helpers_file.py) against its natural-language specification.

Cards are the integers 1..52 as in the source: rank index `(c-1) % 13`
(0 = A .. 12 = K) and suit index `(c-1) / 13`.  Bankrolls, bets and
payouts are modelled as `Int` (Python integers), card codes and points
as `Nat`.  Python dicts are modelled as association lists, read and
written at their first matching key.
-/

namespace Pokdeng

/-- `ranks_suits` (app.py): 1-based rank of a card code. -/
def cardRank (c : Nat) : Nat := (c - 1) % 13 + 1

/-- `ranks_suits` (app.py): suit index of a card code. -/
def cardSuit (c : Nat) : Nat := (c - 1) / 13

/-- `ranks_suits(hand)` from app.py. -/
def ranks_suits (hand : List Nat) : List Nat × List Nat :=
  (hand.map cardRank, hand.map cardSuit)

/-- `hand_points(hand)` from app.py: the loop accumulates each card's
contribution (A = 1, ranks 2..9 face value, 10/J/Q/K = 0) and reduces
the total modulo 10 at the end. -/
def hand_points (hand : List Nat) : Nat :=
  (hand.foldl (fun total c =>
    let rank := (c - 1) % 13
    if rank = 0 then total + 1
    else if 1 ≤ rank ∧ rank ≤ 8 then total + (rank + 1)
    else total) 0) % 10

/-- `is_pok(hand)` from app.py: `(pts in (8, 9), pts)` for 2-card hands,
`(False, 0)` otherwise. -/
def is_pok (hand : List Nat) : Bool × Nat :=
  if hand.length ≠ 2 then (false, 0)
  else
    let pts := hand_points hand
    (pts == 8 || pts == 9, pts)

/-- `is_three_of_a_kind(ranks)` from app.py: length 3 and a single
distinct value (`len(set(ranks)) == 1`). -/
def is_three_of_a_kind (ranks : List Nat) : Bool :=
  match ranks with
  | [x, y, z] => x == y && y == z
  | _ => false

/-- `is_flush(suits)` from app.py: length 3 and a single distinct suit. -/
def is_flush (suits : List Nat) : Bool :=
  match suits with
  | [x, y, z] => x == y && y == z
  | _ => false

/-- Sorting of a 3-element list (`sorted(ranks)` in app.py), returned as
an ordered triple. -/
def sort3 (a b c : Nat) : Nat × Nat × Nat :=
  if a ≤ b then
    (if b ≤ c then (a, b, c) else if a ≤ c then (a, c, b) else (c, a, b))
  else
    (if a ≤ c then (b, a, c) else if b ≤ c then (b, c, a) else (c, b, a))

/-- `is_jqk(ranks)` from app.py: `sorted(ranks) == [11, 12, 13]`
(false for any hand that is not 3 cards). -/
def is_jqk (ranks : List Nat) : Bool :=
  match ranks with
  | [x, y, z] => sort3 x y z == (11, 12, 13)
  | _ => false

/-- `is_straight(ranks)` from app.py: only length-3 lists; after sorting,
either two consecutive steps, or `[1,2,3]`, or `[1,12,13]` (Q-K-A wrap). -/
def is_straight (ranks : List Nat) : Bool :=
  match ranks with
  | [x, y, z] =>
    let s := sort3 x y z
    (s.2.1 == s.1 + 1 && s.2.2 == s.2.1 + 1) || s == (1, 2, 3) || s == (1, 12, 13)
  | _ => false

/-- `deng_multiplier(hand)` from app.py: 2-card hands pay double on a
shared rank or suit; 3-card hands pay 5 on three of a kind, 3 on a
straight, flush or J-Q-K, else 1. -/
def deng_multiplier (hand : List Nat) : Int × String :=
  match hand with
  | [a, b] =>
    if cardRank a = cardRank b ∨ cardSuit a = cardSuit b then (2, "2 เด้ง")
    else (1, "x1")
  | [a, b, c] =>
    let ranks := [cardRank a, cardRank b, cardRank c]
    let suits := [cardSuit a, cardSuit b, cardSuit c]
    if is_three_of_a_kind ranks then (5, "5 เด้ง (ตอง)")
    else if is_straight ranks || is_flush suits || is_jqk ranks then (3, "3 เด้ง")
    else (1, "x1")
  | _ => (1, "x1")

/-- `settle_one(...)` from app.py: Pok-priority settlement of one player
against the dealer, returning the outcome string and the signed payout. -/
def settle_one (player_pts : Nat) (player_pok : Bool) (player_mult : Int)
    (dealer_pts : Nat) (dealer_pok : Bool) (dealer_mult : Int)
    (bet : Int) : String × Int :=
  if player_pok || dealer_pok then
    if player_pok && dealer_pok then
      if player_pts > dealer_pts then ("win", bet * player_mult)
      else if player_pts < dealer_pts then ("lose", -bet * dealer_mult)
      else ("draw", 0)
    else if player_pok then ("win", bet * player_mult)
    else ("lose", -bet * dealer_mult)
  else
    if player_pts > dealer_pts then ("win", bet * player_mult)
    else if player_pts < dealer_pts then ("lose", -bet * dealer_mult)
    else ("draw", 0)

/-- C1: `settle_one` resolves exactly one outcome with Pok priority: when
the Pok flags agree (both or neither side has Pok) the strictly higher
point value wins and equal points push; a lone player Pok wins and a lone
dealer Pok loses.  A win pays `bet * player_mult`, a loss pays
`-(bet * dealer_mult)`, a push pays 0. -/
theorem settle_one_pok_precedence (p_pts d_pts : Nat) (p_pok d_pok : Bool)
    (p_mult d_mult bet : Int) (hbet : 0 < bet) :
    ((settle_one p_pts p_pok p_mult d_pts d_pok d_mult bet).1 = "win" ↔
      (p_pok = true ∧ d_pok = false) ∨ (p_pok = d_pok ∧ d_pts < p_pts)) ∧
    ((settle_one p_pts p_pok p_mult d_pts d_pok d_mult bet).1 = "lose" ↔
      (p_pok = false ∧ d_pok = true) ∨ (p_pok = d_pok ∧ p_pts < d_pts)) ∧
    ((settle_one p_pts p_pok p_mult d_pts d_pok d_mult bet).1 = "draw" ↔
      (p_pok = d_pok ∧ p_pts = d_pts)) ∧
    (settle_one p_pts p_pok p_mult d_pts d_pok d_mult bet).2 =
      (if (settle_one p_pts p_pok p_mult d_pts d_pok d_mult bet).1 = "win" then
        bet * p_mult
      else if (settle_one p_pts p_pok p_mult d_pts d_pok d_mult bet).1 = "lose" then
        -(bet * d_mult)
      else 0) := by
  simp only [settle_one]
  split_ifs <;> simp_all <;> omega

/-- Witness for C1 at a concrete input: player Pok 9 with a double against
a dealer 5 wins and pays twice the bet. -/
theorem settle_one_pok_precedence_witness :
    (settle_one 9 true 2 5 false 1 10).1 = "win" ∧
    (settle_one 9 true 2 5 false 1 10).2 = 20 := by
  have h := settle_one_pok_precedence 9 5 true false 2 1 10 (by decide)
  refine ⟨h.1.mpr (Or.inl ⟨rfl, rfl⟩), ?_⟩
  rw [h.2.2.2]
  simp [h.1.mpr (Or.inl ⟨rfl, rfl⟩)]

/-- Card ranks decoded by `ranks_suits` lie in 1..13. -/
theorem cardRank_le (c : Nat) : 1 ≤ cardRank c ∧ cardRank c ≤ 13 := by
  unfold cardRank
  have := Nat.mod_lt (c - 1) (y := 13) (by omega)
  omega

/-- `sort3` returns a permutation of its arguments. -/
theorem sort3_perm (a b c : Nat) :
    [a, b, c].Perm [(sort3 a b c).1, (sort3 a b c).2.1, (sort3 a b c).2.2] := by
  unfold sort3
  split_ifs
  · exact .refl _
  · exact .cons a (.swap c b [])
  · exact .trans (.cons a (.swap c b [])) (.swap c a [b])
  · exact .swap b a [c]
  · exact .trans (.swap b a [c]) (.cons b (.swap c a []))
  · exact (List.Perm.cons a (.swap c b [])).trans
      ((List.Perm.swap c a [b]).trans (.cons c (.swap b a [])))

/-- `sort3` returns a nondecreasing triple. -/
theorem sort3_sorted (a b c : Nat) :
    (sort3 a b c).1 ≤ (sort3 a b c).2.1 ∧ (sort3 a b c).2.1 ≤ (sort3 a b c).2.2 := by
  unfold sort3
  split_ifs <;> dsimp only <;> omega

/-- Two nondecreasing triples that are permutations of each other are equal. -/
theorem perm_sorted_eq (x y z d e f : Nat) (h1 : x ≤ y) (h2 : y ≤ z)
    (h3 : d ≤ e) (h4 : e ≤ f) (hp : [x, y, z].Perm [d, e, f]) :
    x = d ∧ y = e ∧ z = f := by
  have hs1 : [x, y, z].Sorted (· ≤ ·) := by
    simp [List.sorted_cons]
    omega
  have hs2 : [d, e, f].Sorted (· ≤ ·) := by
    simp [List.sorted_cons]
    omega
  have h := List.eq_of_perm_of_sorted hp hs1 hs2
  simp only [List.cons.injEq, and_true] at h
  exact ⟨h.1, h.2.1, h.2.2⟩

/-- `is_straight` on a 3-element rank list detects exactly the consecutive
runs and the Q-K-A wrap run. -/
theorem is_straight_iff (x y z : Nat) :
    is_straight [x, y, z] = true ↔
      (∃ m, [x, y, z].Perm [m, m + 1, m + 2]) ∨ [x, y, z].Perm [12, 13, 1] := by
  have hperm := sort3_perm x y z
  have hsort := sort3_sorted x y z
  rcases hs : sort3 x y z with ⟨p, q, r⟩
  rw [hs] at hperm hsort
  simp only at hperm hsort
  constructor
  · intro h
    simp only [is_straight, hs, Bool.or_eq_true, Bool.and_eq_true, beq_iff_eq,
      Prod.mk.injEq] at h
    rcases h with (⟨hq, hr⟩ | ⟨hp1, hq, hr⟩) | ⟨hp1, hq, hr⟩
    · subst hq; subst hr
      exact Or.inl ⟨p, hperm⟩
    · subst hp1; subst hq; subst hr
      exact Or.inl ⟨1, hperm⟩
    · subst hp1; subst hq; subst hr
      exact Or.inr (hperm.trans ((List.Perm.swap 12 1 [13]).trans
        (.cons 12 (.swap 13 1 []))))
  · intro h
    rcases h with ⟨m, hm⟩ | hm
    · have he := perm_sorted_eq p q r m (m + 1) (m + 2) hsort.1 hsort.2
        (by omega) (by omega) (hperm.symm.trans hm)
      simp [is_straight, hs]
      omega
    · have hw : [12, 13, 1].Perm [1, 12, 13] :=
        ((List.Perm.swap 12 1 [13]).trans (.cons 12 (.swap 13 1 []))).symm
      have he := perm_sorted_eq p q r 1 12 13 hsort.1 hsort.2
        (by omega) (by omega) ((hperm.symm.trans hm).trans hw)
      simp [is_straight, hs]
      omega

/-- `is_jqk` on a 3-element rank list holds exactly when the ranks are a
permutation of J, Q, K. -/
theorem is_jqk_iff (x y z : Nat) :
    is_jqk [x, y, z] = true ↔ [x, y, z].Perm [11, 12, 13] := by
  have hperm := sort3_perm x y z
  have hsort := sort3_sorted x y z
  rcases hs : sort3 x y z with ⟨p, q, r⟩
  rw [hs] at hperm hsort
  simp only at hperm hsort
  constructor
  · intro h
    simp only [is_jqk, hs, beq_iff_eq, Prod.mk.injEq] at h
    rcases h with ⟨hp1, hq, hr⟩
    subst hp1; subst hq; subst hr
    exact hperm
  · intro h
    have he := perm_sorted_eq p q r 11 12 13 hsort.1 hsort.2
      (by omega) (by omega) (hperm.symm.trans h)
    simp [is_jqk, hs]
    omega

/-- `is_three_of_a_kind` on a 3-element list holds exactly when all three
values are equal. -/
theorem is_three_of_a_kind_iff (x y z : Nat) :
    is_three_of_a_kind [x, y, z] = true ↔ x = y ∧ y = z := by
  simp [is_three_of_a_kind]

/-- `is_flush` on a 3-element suit list holds exactly when all three suits
are equal. -/
theorem is_flush_iff (x y z : Nat) :
    is_flush [x, y, z] = true ↔ x = y ∧ y = z := by
  simp [is_flush]

/-- C2: on 2-card hands `deng_multiplier` returns factor 2 exactly when the
cards share a rank or a suit, else 1; on 3-card hands it returns 5 exactly
when all three ranks are equal, else 3 exactly when the ranks are a
consecutive A-low run or the Q-K-A wrap run, or the suits are all equal, or
the ranks are exactly J, Q, K, else 1. -/
theorem deng_multiplier_spec :
    (∀ a b : Nat, (deng_multiplier [a, b]).1 =
      (if cardRank a = cardRank b ∨ cardSuit a = cardSuit b then 2 else 1)) ∧
    (∀ a b c : Nat, (deng_multiplier [a, b, c]).1 =
      (if cardRank a = cardRank b ∧ cardRank b = cardRank c then 5
       else if (∃ m ∈ Finset.range 14,
                  [cardRank a, cardRank b, cardRank c].Perm [m, m + 1, m + 2]) ∨
               [cardRank a, cardRank b, cardRank c].Perm [12, 13, 1] ∨
               (cardSuit a = cardSuit b ∧ cardSuit b = cardSuit c) ∨
               [cardRank a, cardRank b, cardRank c].Perm [11, 12, 13] then 3
       else 1)) := by
  constructor
  · intro a b
    simp only [deng_multiplier]
    split_ifs <;> rfl
  · intro a b c
    have hcond : (is_straight [cardRank a, cardRank b, cardRank c]
        || is_flush [cardSuit a, cardSuit b, cardSuit c]
        || is_jqk [cardRank a, cardRank b, cardRank c]) = true ↔
        ((∃ m ∈ Finset.range 14,
            [cardRank a, cardRank b, cardRank c].Perm [m, m + 1, m + 2]) ∨
          [cardRank a, cardRank b, cardRank c].Perm [12, 13, 1] ∨
          (cardSuit a = cardSuit b ∧ cardSuit b = cardSuit c) ∨
          [cardRank a, cardRank b, cardRank c].Perm [11, 12, 13]) := by
      simp only [Bool.or_eq_true, is_straight_iff, is_flush_iff, is_jqk_iff]
      constructor
      · rintro (((⟨m, hm⟩ | hw) | hf) | hj)
        · have hmem : m ∈ [cardRank a, cardRank b, cardRank c] :=
            hm.mem_iff.mpr (by simp)
          refine Or.inl ⟨m, Finset.mem_range.mpr ?_, hm⟩
          have ha := cardRank_le a
          have hb := cardRank_le b
          have hc := cardRank_le c
          simp only [List.mem_cons, List.not_mem_nil, or_false] at hmem
          omega
        · exact Or.inr (Or.inl hw)
        · exact Or.inr (Or.inr (Or.inl hf))
        · exact Or.inr (Or.inr (Or.inr hj))
      · rintro (⟨m, _, hm⟩ | hw | hf | hj)
        · exact Or.inl (Or.inl (Or.inl ⟨m, hm⟩))
        · exact Or.inl (Or.inl (Or.inr hw))
        · exact Or.inl (Or.inr hf)
        · exact Or.inr hj
    simp only [deng_multiplier]
    by_cases h5 : cardRank a = cardRank b ∧ cardRank b = cardRank c
    · rw [if_pos ((is_three_of_a_kind_iff _ _ _).mpr h5), if_pos h5]
    · rw [if_neg (fun hb => h5 ((is_three_of_a_kind_iff _ _ _).mp hb)), if_neg h5]
      by_cases hc : (∃ m ∈ Finset.range 14,
            [cardRank a, cardRank b, cardRank c].Perm [m, m + 1, m + 2]) ∨
          [cardRank a, cardRank b, cardRank c].Perm [12, 13, 1] ∨
          (cardSuit a = cardSuit b ∧ cardSuit b = cardSuit c) ∨
          [cardRank a, cardRank b, cardRank c].Perm [11, 12, 13]
      · rw [if_pos (hcond.mpr hc), if_pos hc]
      · rw [if_neg (fun hb => hc (hcond.mp hb)), if_neg hc]

/-- Reference rank table, following the spec's words for C9: rank A
contributes 1, numeric ranks 2-9 their face value, ranks 10/J/Q/K 0. -/
def specRankValue (c : Nat) : Nat :=
  let r := (c - 1) % 13 + 1
  if r = 1 then 1 else if r ≤ 9 then r else 0

/-- The loop body of `hand_points` adds exactly the spec's rank value. -/
theorem hand_points_step (t c : Nat) :
    (let rank := (c - 1) % 13
     if rank = 0 then t + 1
     else if 1 ≤ rank ∧ rank ≤ 8 then t + (rank + 1)
     else t) = t + specRankValue c := by
  simp only [specRankValue]
  split_ifs <;> omega

/-- The accumulator of `hand_points` computes the sum of rank values. -/
theorem hand_points_foldl (l : List Nat) : ∀ t : Nat,
    (l.foldl (fun total c =>
      let rank := (c - 1) % 13
      if rank = 0 then total + 1
      else if 1 ≤ rank ∧ rank ≤ 8 then total + (rank + 1)
      else total) t) = t + (l.map specRankValue).sum := by
  induction l with
  | nil => simp
  | cons c l ih =>
    intro t
    simp only [List.foldl_cons, List.map_cons, List.sum_cons]
    rw [show (let rank := (c - 1) % 13
          if rank = 0 then t + 1
          else if 1 ≤ rank ∧ rank ≤ 8 then t + (rank + 1)
          else t) = t + specRankValue c from hand_points_step t c, ih]
    omega

/-- C9: on hands of length 2 or 3 (indeed on all hands), `hand_points` is
the sum of the cards' rank values (A = 1, 2-9 face value, 10/J/Q/K = 0)
reduced modulo 10, and the result lies in 0..9. -/
theorem hand_points_spec (hand : List Nat)
    (hlen : hand.length = 2 ∨ hand.length = 3) :
    hand_points hand = (hand.map specRankValue).sum % 10 ∧
      hand_points hand ≤ 9 := by
  unfold hand_points
  rw [hand_points_foldl hand 0]
  constructor
  · simp
  · have h10 : ((0 + (hand.map specRankValue).sum) % 10) < 10 :=
      Nat.mod_lt _ (by omega)
    omega

/-- Witness for C9 on the concrete hand A♠ 8♥. -/
theorem hand_points_spec_witness :
    hand_points [1, 21] = (([1, 21]).map specRankValue).sum % 10 ∧
      hand_points [1, 21] ≤ 9 :=
  hand_points_spec [1, 21] (Or.inl rfl)

/-- One participant of a room: the fields `app.py` stores per user.
(`last_seen` is presence bookkeeping and is not touched by the modelled
operations.) -/
structure User where
  name : String
  bankroll : Int
  hand : List Nat
  bet : Int
  acted : Bool
  ready : Bool
deriving DecidableEq, Repr, Inhabited

/-- One entry of `last_results` as built by `settle_players`. -/
structure SettleResult where
  player_id : String
  player_name : String
  outcome : String
  payout : Int
  player_pts : Nat
  dealer_pts : Nat
  player_mult_label : String
  dealer_mult_label : String
deriving DecidableEq, Repr

/-- The game-state fields of a room dict in `app.py` (`code`, `version`
and the timestamps are storage bookkeeping handled by the store model).
The `users` dict is modelled as an association list read and written at
the first matching key. -/
structure Room where
  status : String
  dealer : Option String
  deck : List Nat
  users : List (String × User)
  order : List String
  last_results : List SettleResult
  settled_players : List String
  chat : List String
deriving DecidableEq, Repr

/-- Dict lookup `room["users"].get(uid)`. -/
def userGet (users : List (String × User)) (uid : String) : Option User :=
  match users with
  | [] => none
  | (k, v) :: t => if k = uid then some v else userGet t uid

/-- Dict write `room["users"][uid] = v` (replaces the first matching key,
appends when absent). -/
def aset (users : List (String × User)) (uid : String) (v : User) :
    List (String × User) :=
  match users with
  | [] => [(uid, v)]
  | (k, w) :: t => if k = uid then (uid, v) :: t else (k, w) :: aset t uid v

/-- The keys of the users dict. -/
def keys (users : List (String × User)) : List String := users.map Prod.fst

/-- The bankroll stored under `uid` (0 when absent). -/
def bank (users : List (String × User)) (uid : String) : Int :=
  ((userGet users uid).getD default).bankroll

/-- The sum of all bankrolls in the room. -/
def totalBankroll (users : List (String × User)) : Int :=
  (users.map (fun p => p.2.bankroll)).sum

/-- `ensure_deck(room)` from app.py: an empty (or missing) deck is replaced
by a shuffled copy of `list(range(1, 53))`.  The shuffle of `random.shuffle`
is an explicit parameter. -/
def ensure_deck (shuffle : List Nat → List Nat) (room : Room) : Room :=
  if room.deck = [] then { room with deck := shuffle (List.range' 1 52) }
  else room

/-- `draw_card(room)` from app.py: ensure the deck, then `deck.pop()`
(remove and return the last element). -/
def draw_card (shuffle : List Nat → List Nat) (room : Room) : Nat × Room :=
  let r := ensure_deck shuffle room
  (r.deck.getLast?.getD 0, { r with deck := r.deck.dropLast })

/-- The Hit (Draw) action of the `player_action` phase (app.py lines
509-510): guarded by hand size below 3, not yet acted, and no Pok; on
success one card is drawn from the shared deck, appended to the hand, and
the acted flag is set. -/
def playerHit (shuffle : List Nat → List Nat) (room : Room) (uid : String) :
    Room :=
  let u := (userGet room.users uid).getD default
  let p_pok := if u.hand.length = 2 then (is_pok u.hand).1 else false
  if u.hand.length < 3 ∧ u.acted = false ∧ p_pok = false then
    let d := draw_card shuffle room
    { d.2 with
      users := aset d.2.users uid { u with hand := u.hand ++ [d.1], acted := true } }
  else room

/-- The deck/hand reset at round start (app.py lines 459-467): fresh
shuffled 52-card deck, cleared results, settled set and chat, every hand
and acted flag cleared and bets below 1 reset to 10. -/
def roundReset (shuffle : List Nat → List Nat) (room : Room) : Room :=
  { room with
    deck := shuffle (List.range' 1 52),
    last_results := [], settled_players := [], chat := [],
    users := room.users.map fun p =>
      (p.1,
        { p.2 with
          hand := []
          acted := false
          bet := if p.2.bet < 1 then 10 else p.2.bet }) }

/-- Drawing one card into a participant's hand (the dealing step
`hand.append(draw_card(room))`). -/
def drawTo (shuffle : List Nat → List Nat) (room : Room) (uid : String) :
    Room :=
  let d := draw_card shuffle room
  let u := (userGet d.2.users uid).getD default
  { d.2 with users := aset d.2.users uid { u with hand := u.hand ++ [d.1] } }

/-- The deck invariant of the spec: no duplicate cards in the deck and the
deck disjoint from every dealt hand. -/
def deckInvariant (room : Room) : Prop :=
  room.deck.Nodup ∧ ∀ p ∈ room.users, ∀ c ∈ p.2.hand, c ∉ room.deck

/-- The dealer's "Back to Lobby" action (app.py lines 590-594 and
626-630): clear every hand, acted and ready flag, clear the results log
and settled set, set status to lobby. -/
def backToLobby (room : Room) : Room :=
  { room with
    users := room.users.map fun p =>
      (p.1, { p.2 with hand := [], acted := false, ready := false }),
    status := "lobby", last_results := [], settled_players := [] }

/-- C10: back-to-lobby clears hands, acted and ready flags, the results
log and the settled set, sets status to lobby, and preserves the dealer
assignment, the membership keys, every name and every bankroll. -/
theorem back_to_lobby_frame (room : Room) :
    (backToLobby room).status = "lobby" ∧
    (backToLobby room).last_results = [] ∧
    (backToLobby room).settled_players = [] ∧
    (backToLobby room).dealer = room.dealer ∧
    (backToLobby room).users.map (fun p => (p.1, p.2.name, p.2.bankroll)) =
      room.users.map (fun p => (p.1, p.2.name, p.2.bankroll)) ∧
    (backToLobby room).users.map (fun p => (p.2.hand, p.2.acted, p.2.ready)) =
      room.users.map (fun _ => (([] : List Nat), false, false)) := by
  refine ⟨rfl, rfl, rfl, rfl, ?_, ?_⟩ <;>
    · simp only [backToLobby, List.map_map]
      rfl

/-- C8: the Hit action is a no-op whenever the hand already has 3 cards,
the player has already acted, or the two-card hand is Pok; otherwise it
removes exactly the last card of the shared deck, appends it to the hand
and sets the acted flag, changing nothing else. -/
theorem player_hit_spec (shuffle : List Nat → List Nat) (room : Room)
    (uid : String) :
    ((((userGet room.users uid).getD default).hand.length = 3 ∨
      ((userGet room.users uid).getD default).acted = true ∨
      (((userGet room.users uid).getD default).hand.length = 2 ∧
        (is_pok ((userGet room.users uid).getD default).hand).1 = true)) →
      playerHit shuffle room uid = room) ∧
    (room.deck ≠ [] →
      ((userGet room.users uid).getD default).hand.length < 3 →
      ((userGet room.users uid).getD default).acted = false →
      (((userGet room.users uid).getD default).hand.length = 2 →
        (is_pok ((userGet room.users uid).getD default).hand).1 = false) →
      playerHit shuffle room uid =
        { room with
          deck := room.deck.dropLast,
          users := aset room.users uid
            { (userGet room.users uid).getD default with
              hand := ((userGet room.users uid).getD default).hand ++
                [room.deck.getLast?.getD 0],
              acted := true } }) := by
  constructor
  · intro h
    unfold playerHit
    rw [if_neg]
    rintro ⟨h1, h2, h3⟩
    rcases h with h | h | ⟨hl, hp⟩
    · omega
    · rw [h] at h2
      exact Bool.true_eq_false.mp h2
    · rw [if_pos hl] at h3
      rw [hp] at h3
      exact Bool.true_eq_false.mp h3
  · intro hne h1 h2 h3
    have hpok : (if ((userGet room.users uid).getD default).hand.length = 2
        then (is_pok ((userGet room.users uid).getD default).hand).1
        else false) = false := by
      by_cases hl : ((userGet room.users uid).getD default).hand.length = 2
      · rw [if_pos hl]
        exact h3 hl
      · rw [if_neg hl]
    unfold playerHit
    rw [if_pos ⟨h1, h2, hpok⟩]
    unfold draw_card ensure_deck
    rw [if_neg hne]

/-- Every entry of `aset l k v` is `(k, v)` or an entry of `l`. -/
theorem mem_aset (l : List (String × User)) (k : String) (v : User)
    (q : String × User) (hq : q ∈ aset l k v) : q = (k, v) ∨ q ∈ l := by
  induction l with
  | nil =>
    simp only [aset, List.mem_singleton] at hq
    exact Or.inl hq
  | cons p t ih =>
    obtain ⟨k1, w⟩ := p
    simp only [aset] at hq
    split_ifs at hq with hk
    · rcases List.mem_cons.mp hq with h | h
      · exact Or.inl h
      · exact Or.inr (List.mem_cons.mpr (Or.inr h))
    · rcases List.mem_cons.mp hq with h | h
      · exact Or.inr (List.mem_cons.mpr (Or.inl h))
      · rcases ih h with h2 | h2
        · exact Or.inl h2
        · exact Or.inr (List.mem_cons.mpr (Or.inr h2))

/-- A successful dict lookup is an entry of the list. -/
theorem userGet_mem (l : List (String × User)) (uid : String) (v : User)
    (h : userGet l uid = some v) : (uid, v) ∈ l := by
  induction l with
  | nil => simp [userGet] at h
  | cons p t ih =>
    obtain ⟨k1, w⟩ := p
    simp only [userGet] at h
    split_ifs at h with hk
    · obtain rfl : w = v := Option.some.inj h
      subst hk
      exact List.mem_cons_self _ _
    · exact List.mem_cons.mpr (Or.inr (ih h))

/-- In a duplicate-free list, the popped last element does not survive in
the remaining deck. -/
theorem getLast_getD_not_mem_dropLast (l : List Nat) (hnd : l.Nodup) :
    l.getLast?.getD 0 ∉ l.dropLast := by
  cases l with
  | nil => simp
  | cons a t =>
    have hne : a :: t ≠ [] := List.cons_ne_nil a t
    rw [List.getLast?_eq_getLast _ hne, Option.getD_some]
    intro hmem
    have h2 : ((a :: t).dropLast ++ [(a :: t).getLast hne]).Nodup := by
      rw [List.dropLast_append_getLast hne]
      exact hnd
    rcases List.nodup_append.mp h2 with ⟨hd1, hd2, hdisj⟩
    exact hdisj hmem (List.mem_singleton.mpr rfl)

/-- C7: the round-start reset recreates the deck as a shuffled permutation
of the 52 distinct cards with all hands cleared (so the deck invariant
holds before any card is dealt), and a draw that hands the popped card to
any participant preserves the invariant whenever the deck is non-empty. -/
theorem deck_invariant_spec (shuffle : List Nat → List Nat) (room : Room)
    (uid : String) (hsh : ∀ l, (shuffle l).Perm l)
    (hinv : deckInvariant room) (hne : room.deck ≠ []) :
    (deckInvariant (roundReset shuffle room) ∧
      (roundReset shuffle room).deck.Perm (List.range' 1 52) ∧
      (List.range' 1 52).Nodup ∧ (List.range' 1 52).length = 52) ∧
    deckInvariant (drawTo shuffle room uid) := by
  have hrange : (List.range' 1 52).Nodup := List.nodup_range' 1 52
  constructor
  · refine ⟨⟨((hsh (List.range' 1 52)).nodup_iff).mpr hrange, ?_⟩,
      hsh (List.range' 1 52), hrange, by simp⟩
    rintro p hp c hc hcd
    simp only [roundReset, List.mem_map] at hp
    obtain ⟨q, hq, rfl⟩ := hp
    simp only [List.not_mem_nil] at hc
  · obtain ⟨hndk, hdisj⟩ := hinv
    have hed : ensure_deck shuffle room = room := by
      unfold ensure_deck
      rw [if_neg hne]
    constructor
    · simp only [drawTo, draw_card, hed]
      exact (List.dropLast_sublist room.deck).nodup hndk
    · rintro p hp c hc
      simp only [drawTo, draw_card, hed] at hp ⊢
      rcases mem_aset _ _ _ _ hp with rfl | hmem
      · simp only [List.mem_append, List.mem_singleton] at hc
        rcases hc with hc | rfl
        · intro hcd
          cases hug : userGet room.users uid with
          | none =>
            rw [hug] at hc
            exact absurd hc (List.not_mem_nil c)
          | some w =>
            rw [hug] at hc
            exact hdisj (uid, w) (userGet_mem _ _ _ hug) c hc
              ((List.dropLast_sublist room.deck).mem hcd)
        · exact getLast_getD_not_mem_dropLast room.deck hndk
      · intro hcd
        exact hdisj p hmem c hc ((List.dropLast_sublist room.deck).mem hcd)

/-- The dealer participant of the concrete sample room. -/
def dealerUser : User :=
  { name := "Dealer", bankroll := 1000, hand := [1], bet := 10,
    acted := false, ready := false }

/-- The player participant of the concrete sample room. -/
def patUser : User :=
  { name := "Pat", bankroll := 500, hand := [2], bet := 20,
    acted := false, ready := false }

/-- A concrete two-user room used by the closed witnesses: dealer `D`
holding one card, player `P`, a three-card deck disjoint from the hand. -/
def sampleRoom : Room :=
  { status := "player_action"
    dealer := some "D"
    deck := [5, 6, 7]
    users := [("D", dealerUser), ("P", patUser)]
    order := ["P"]
    last_results := []
    settled_players := []
    chat := [] }

/-- Witness for C7 at a concrete room and the identity shuffle. -/
theorem deck_invariant_spec_witness :
    (deckInvariant (roundReset (fun l => l) sampleRoom) ∧
      (roundReset (fun l => l) sampleRoom).deck.Perm (List.range' 1 52) ∧
      (List.range' 1 52).Nodup ∧ (List.range' 1 52).length = 52) ∧
    deckInvariant (drawTo (fun l => l) sampleRoom "P") :=
  deck_invariant_spec (fun l => l) sampleRoom "P" (fun l => List.Perm.refl l)
    ⟨by decide, by decide⟩ (by decide)

/-- Looking up the written key returns the written value. -/
theorem userGet_aset_self (l : List (String × User)) (k : String) (v : User) :
    userGet (aset l k v) k = some v := by
  induction l with
  | nil => simp [aset, userGet]
  | cons p t ih =>
    obtain ⟨k1, w⟩ := p
    simp only [aset]
    split_ifs with h
    · simp [userGet]
    · simp only [userGet]
      rw [if_neg h]
      exact ih

/-- Writing one key leaves every other lookup unchanged. -/
theorem userGet_aset_ne (l : List (String × User)) (k : String) (v : User)
    (j : String) (hj : j ≠ k) : userGet (aset l k v) j = userGet l j := by
  induction l with
  | nil =>
    simp only [aset, userGet]
    rw [if_neg (fun h => hj h.symm)]
  | cons p t ih =>
    obtain ⟨k1, w⟩ := p
    simp only [aset]
    split_ifs with h
    · subst h
      simp only [userGet]
      rw [if_neg (fun h2 => hj h2.symm), if_neg (fun h2 => hj h2.symm)]
    · simp only [userGet]
      by_cases h2 : k1 = j
      · rw [if_pos h2, if_pos h2]
      · rw [if_neg h2, if_neg h2]
        exact ih

/-- Writing an existing key does not change the key list. -/
theorem keys_aset (l : List (String × User)) (k : String) (v : User) :
    k ∈ keys l → keys (aset l k v) = keys l := by
  induction l with
  | nil =>
    intro hk
    simp [keys] at hk
  | cons p t ih =>
    intro hk
    obtain ⟨k1, w⟩ := p
    simp only [aset]
    split_ifs with h
    · subst h
      rfl
    · have hk2 : k ∈ keys t := by
        simp only [keys, List.map_cons, List.mem_cons] at hk
        rcases hk with h1 | h1
        · exact absurd h1.symm h
        · exact h1
      have ih2 := ih hk2
      simp only [keys, List.map_cons]
      simp only [keys] at ih2
      rw [ih2]

/-- `bank` after writing the same key. -/
theorem bank_aset_self (l : List (String × User)) (k : String) (v : User) :
    bank (aset l k v) k = v.bankroll := by
  simp [bank, userGet_aset_self]

/-- `bank` after writing a different key. -/
theorem bank_aset_ne (l : List (String × User)) (k : String) (v : User)
    (j : String) (hj : j ≠ k) : bank (aset l k v) j = bank l j := by
  simp [bank, userGet_aset_ne l k v j hj]

/-- Writing an existing key changes the total bankroll by the difference
between the new and the stored entry. -/
theorem totalBankroll_aset (l : List (String × User)) (k : String) (v : User) :
    k ∈ keys l →
    totalBankroll (aset l k v) = totalBankroll l - bank l k + v.bankroll := by
  induction l with
  | nil =>
    intro hk
    simp [keys] at hk
  | cons p t ih =>
    intro hk
    obtain ⟨k1, w⟩ := p
    simp only [aset]
    split_ifs with h
    · have hb : bank ((k1, w) :: t) k = w.bankroll := by
        simp [bank, userGet, h]
      simp only [totalBankroll, List.map_cons, List.sum_cons]
      rw [hb]
      ring
    · have hk2 : k ∈ keys t := by
        simp only [keys, List.map_cons, List.mem_cons] at hk
        rcases hk with h1 | h1
        · exact absurd h1.symm h
        · exact h1
      have hb : bank ((k1, w) :: t) k = bank t k := by
        simp only [bank, userGet]
        rw [if_neg h]
      simp only [totalBankroll, List.map_cons, List.sum_cons] at ih ⊢
      rw [ih hk2, hb]
      ring

/-- The bankroll transfer of one settled player (app.py lines 222-227):
credit the player with the signed payout, then debit the dealer by the
same amount (both branches of the source perform these two updates). -/
def applyTransfer (users : List (String × User)) (uid did : String)
    (payout : Int) : List (String × User) :=
  let u := (userGet users uid).getD default
  let users1 := aset users uid { u with bankroll := u.bankroll + payout }
  let d := (userGet users1 did).getD default
  aset users1 did { d with bankroll := d.bankroll - payout }

/-- The transfer is zero-sum: total unchanged, dealer down by the payout,
player up by the payout, everyone else untouched. -/
theorem applyTransfer_spec (users : List (String × User)) (uid did : String)
    (payout : Int) (huid : uid ∈ keys users) (hdid : did ∈ keys users)
    (hne : uid ≠ did) :
    keys (applyTransfer users uid did payout) = keys users ∧
    totalBankroll (applyTransfer users uid did payout) = totalBankroll users ∧
    bank (applyTransfer users uid did payout) did = bank users did - payout ∧
    bank (applyTransfer users uid did payout) uid = bank users uid + payout ∧
    ∀ j, j ≠ uid → j ≠ did →
      bank (applyTransfer users uid did payout) j = bank users j := by
  simp only [applyTransfer]
  have hk1 : keys (aset users uid
      { (userGet users uid).getD default with
        bankroll := ((userGet users uid).getD default).bankroll + payout }) =
      keys users :=
    keys_aset users uid _ huid
  have hdid1 : did ∈ keys (aset users uid
      { (userGet users uid).getD default with
        bankroll := ((userGet users uid).getD default).bankroll + payout }) := by
    rw [hk1]
    exact hdid
  have hbu : bank users uid = ((userGet users uid).getD default).bankroll := rfl
  have hbd1 : bank (aset users uid
      { (userGet users uid).getD default with
        bankroll := ((userGet users uid).getD default).bankroll + payout }) did =
      bank users did :=
    bank_aset_ne users uid _ did (fun h => hne h.symm)
  refine ⟨?_, ?_, ?_, ?_, ?_⟩
  · rw [keys_aset _ did _ hdid1, hk1]
  · rw [totalBankroll_aset _ did _ hdid1, totalBankroll_aset _ uid _ huid]
    have hd1 : bank (aset users uid
        { (userGet users uid).getD default with
          bankroll := ((userGet users uid).getD default).bankroll + payout }) did =
        ((userGet (aset users uid
          { (userGet users uid).getD default with
            bankroll := ((userGet users uid).getD default).bankroll + payout })
          did).getD default).bankroll := rfl
    rw [← hd1]
    simp only [← hbu]
    ring
  · rw [bank_aset_self]
    simp only [← show bank (aset users uid
        { (userGet users uid).getD default with
          bankroll := ((userGet users uid).getD default).bankroll + payout }) did =
        ((userGet (aset users uid
          { (userGet users uid).getD default with
            bankroll := ((userGet users uid).getD default).bankroll + payout })
          did).getD default).bankroll from rfl]
    rw [hbd1]
  · rw [bank_aset_ne _ did _ uid hne, bank_aset_self]
    simp only [← hbu]
  · intro j hju hjd
    rw [bank_aset_ne _ did _ j hjd, bank_aset_ne _ uid _ j hju]

/-- The outcome/payout of one player against the dealer context, as
computed inside the `settle_players` loop (app.py lines 213-219): points,
Pok flag and multiplier of the player's own hand, bet floored at 1. -/
def playerPayout (d_pts : Nat) (d_pok : Bool) (d_mult : Int) (u : User) :
    String × Int :=
  settle_one (hand_points u.hand) (is_pok u.hand).1 (deng_multiplier u.hand).1
    d_pts d_pok d_mult (max 1 u.bet)

/-- The users dict after settling one player (app.py lines 221-227): the
two identical branches of the source apply the transfer for any non-zero
payout and do nothing on zero. -/
def stepUsers (did : String) (d_pts : Nat) (d_pok : Bool) (d_mult : Int)
    (users : List (String × User)) (uid : String) : List (String × User) :=
  if (playerPayout d_pts d_pok d_mult ((userGet users uid).getD default)).2 > 0 then
    applyTransfer users uid did
      (playerPayout d_pts d_pok d_mult ((userGet users uid).getD default)).2
  else if (playerPayout d_pts d_pok d_mult ((userGet users uid).getD default)).2 < 0 then
    applyTransfer users uid did
      (playerPayout d_pts d_pok d_mult ((userGet users uid).getD default)).2
  else users

/-- The result record appended for one settled player (app.py lines
229-238). -/
def stepResult (d_pts : Nat) (d_pok : Bool) (d_mult : Int) (d_lbl : String)
    (users : List (String × User)) (uid : String) : SettleResult :=
  { player_id := uid
    player_name := ((userGet users uid).getD default).name
    outcome := (playerPayout d_pts d_pok d_mult ((userGet users uid).getD default)).1
    payout := (playerPayout d_pts d_pok d_mult ((userGet users uid).getD default)).2
    player_pts := hand_points ((userGet users uid).getD default).hand
    dealer_pts := d_pts
    player_mult_label :=
      if (deng_multiplier ((userGet users uid).getD default).hand).1 ≠ 1 then
        (deng_multiplier ((userGet users uid).getD default).hand).2
      else ""
    dealer_mult_label := if d_mult ≠ 1 then d_lbl else "" }

/-- The loop of `settle_players` (app.py lines 209-241): players already
in the settled set are skipped; each other target is settled once, the
transfer applied, the result recorded and the id added to the settled
set.  Python's `settled_set` is a `set`; it is modelled as a list grown
only behind a not-already-member guard, which preserves exactly its
membership semantics (reachable rooms hold no duplicate settled ids). -/
def settleLoop (did : String) (d_pts : Nat) (d_pok : Bool) (d_mult : Int)
    (d_lbl : String) :
    List String → List (String × User) → List String →
    List (String × User) × List String × List SettleResult
  | [], users, settled => (users, settled, [])
  | uid :: rest, users, settled =>
    if uid ∈ settled then
      settleLoop did d_pts d_pok d_mult d_lbl rest users settled
    else
      ((settleLoop did d_pts d_pok d_mult d_lbl rest
          (stepUsers did d_pts d_pok d_mult users uid) (settled ++ [uid])).1,
       (settleLoop did d_pts d_pok d_mult d_lbl rest
          (stepUsers did d_pts d_pok d_mult users uid) (settled ++ [uid])).2.1,
       stepResult d_pts d_pok d_mult d_lbl users uid ::
         (settleLoop did d_pts d_pok d_mult d_lbl rest
            (stepUsers did d_pts d_pok d_mult users uid) (settled ++ [uid])).2.2)

/-- `settle_players(room, target_uids)` from app.py: no-op without a
dealer (Python treats a missing or empty dealer id as falsy); otherwise
the dealer's hand is scored once and every target not yet settled is
settled against it; the results are appended to `last_results`. -/
def settle_players (room : Room) (target_uids : List String) :
    Room × List SettleResult :=
  match room.dealer with
  | none => (room, [])
  | some dealer_id =>
    if dealer_id = "" then (room, [])
    else
      let d_hand := ((userGet room.users dealer_id).getD default).hand
      let r := settleLoop dealer_id (hand_points d_hand) (is_pok d_hand).1
        (deng_multiplier d_hand).1 (deng_multiplier d_hand).2
        target_uids room.users room.settled_players
      ({ room with
         users := r.1
         settled_players := r.2.1
         last_results := room.last_results ++ r.2.2 }, r.2.2)

/-- One settle step is zero-sum and touches only the player and the
dealer. -/
theorem stepUsers_spec (did : String) (d_pts : Nat) (d_pok : Bool)
    (d_mult : Int) (users : List (String × User)) (uid : String)
    (huid : uid ∈ keys users) (hdid : did ∈ keys users) (hne : uid ≠ did) :
    keys (stepUsers did d_pts d_pok d_mult users uid) = keys users ∧
    totalBankroll (stepUsers did d_pts d_pok d_mult users uid) =
      totalBankroll users ∧
    bank (stepUsers did d_pts d_pok d_mult users uid) did =
      bank users did -
        (playerPayout d_pts d_pok d_mult ((userGet users uid).getD default)).2 ∧
    bank (stepUsers did d_pts d_pok d_mult users uid) uid =
      bank users uid +
        (playerPayout d_pts d_pok d_mult ((userGet users uid).getD default)).2 ∧
    ∀ j, j ≠ uid → j ≠ did →
      bank (stepUsers did d_pts d_pok d_mult users uid) j = bank users j := by
  unfold stepUsers
  split_ifs with h1 h2
  · exact applyTransfer_spec users uid did _ huid hdid hne
  · exact applyTransfer_spec users uid did _ huid hdid hne
  · have h0 : (playerPayout d_pts d_pok d_mult
        ((userGet users uid).getD default)).2 = 0 := by omega
    rw [h0]
    exact ⟨rfl, rfl, by ring, by ring, fun j h3 h4 => rfl⟩

/-- Full characterisation of the settle loop: keys and total bankroll are
preserved, the dealer loses the sum of the recorded payouts, and every
other id gains exactly the payouts recorded for it. -/
theorem settleLoop_spec (did : String) (d_pts : Nat) (d_pok : Bool)
    (d_mult : Int) (d_lbl : String) (targets : List String) :
    ∀ (users : List (String × User)) (settled : List String),
    (∀ u ∈ targets, u ∈ keys users) → did ∈ keys users → did ∉ targets →
    keys (settleLoop did d_pts d_pok d_mult d_lbl targets users settled).1 =
      keys users ∧
    totalBankroll
        (settleLoop did d_pts d_pok d_mult d_lbl targets users settled).1 =
      totalBankroll users ∧
    bank (settleLoop did d_pts d_pok d_mult d_lbl targets users settled).1 did =
      bank users did -
        (((settleLoop did d_pts d_pok d_mult d_lbl targets users settled).2.2).map
          SettleResult.payout).sum ∧
    ∀ j, j ≠ did →
      bank (settleLoop did d_pts d_pok d_mult d_lbl targets users settled).1 j =
        bank users j +
          ((((settleLoop did d_pts d_pok d_mult d_lbl targets users
              settled).2.2).filter
            (fun r => r.player_id == j)).map SettleResult.payout).sum := by
  induction targets with
  | nil =>
    intro users settled ht hdid hdt
    simp [settleLoop]
  | cons uid rest ih =>
    intro users settled ht hdid hdt
    have huid : uid ∈ keys users := ht uid (List.mem_cons_self _ _)
    have hrest : ∀ u ∈ rest, u ∈ keys users :=
      fun u hu => ht u (List.mem_cons.mpr (Or.inr hu))
    have hdrest : did ∉ rest := fun h => hdt (List.mem_cons.mpr (Or.inr h))
    have hneq : uid ≠ did := fun h => hdt (h ▸ List.mem_cons_self _ _)
    by_cases hs : uid ∈ settled
    · simp only [settleLoop, if_pos hs]
      exact ih users settled hrest hdid hdrest
    · obtain ⟨hk1, ht1, hd1, hu1, hj1⟩ :=
        stepUsers_spec did d_pts d_pok d_mult users uid huid hdid hneq
      have hrest1 : ∀ u ∈ rest,
          u ∈ keys (stepUsers did d_pts d_pok d_mult users uid) := by
        intro u hu
        rw [hk1]
        exact hrest u hu
      have hdid1 : did ∈ keys (stepUsers did d_pts d_pok d_mult users uid) := by
        rw [hk1]
        exact hdid
      obtain ⟨ihk, iht, ihd, ihj⟩ :=
        ih (stepUsers did d_pts d_pok d_mult users uid) (settled ++ [uid])
          hrest1 hdid1 hdrest
      simp only [settleLoop, if_neg hs]
      refine ⟨by rw [ihk, hk1], by rw [iht, ht1], ?_, ?_⟩
      · rw [ihd, hd1]
        simp only [List.map_cons, List.sum_cons, stepResult]
        ring
      · intro j hj
        by_cases hju : j = uid
        · subst hju
          rw [ihj j hj, hu1]
          simp only [List.filter_cons, stepResult, beq_self_eq_true,
            if_pos, List.map_cons, List.sum_cons]
          ring
        · rw [ihj j hj, hj1 j hju hj]
          have hne2 : ((stepResult d_pts d_pok d_mult d_lbl users uid).player_id
              == j) = false := by
            have hpid : (stepResult d_pts d_pok d_mult d_lbl users uid).player_id
                = uid := rfl
            rw [hpid]
            exact beq_eq_false_iff_ne.mpr (fun h => hju h.symm)
          simp only [List.filter_cons, hne2]
          rw [if_neg (by simp)]

/-- C3: per settled player the bankroll transfer is zero-sum — the player
gains exactly the signed payouts recorded for them, the dealer loses the
sum of all recorded payouts, and the total bankroll across the room is
unchanged by the call. -/
theorem settle_players_zero_sum (room : Room) (targets : List String)
    (did j : String) (hd : room.dealer = some did) (hdne : did ≠ "")
    (ht : ∀ u ∈ targets, u ∈ keys room.users)
    (hdid : did ∈ keys room.users) (hdt : did ∉ targets) (hj : j ≠ did) :
    totalBankroll (settle_players room targets).1.users =
      totalBankroll room.users ∧
    bank (settle_players room targets).1.users did =
      bank room.users did -
        (((settle_players room targets).2).map SettleResult.payout).sum ∧
    bank (settle_players room targets).1.users j =
      bank room.users j +
        ((((settle_players room targets).2).filter
          (fun r => r.player_id == j)).map SettleResult.payout).sum := by
  obtain ⟨hk, htot, hbd, hbj⟩ :=
    settleLoop_spec did
      (hand_points ((userGet room.users did).getD default).hand)
      (is_pok ((userGet room.users did).getD default).hand).1
      (deng_multiplier ((userGet room.users did).getD default).hand).1
      (deng_multiplier ((userGet room.users did).getD default).hand).2
      targets room.users room.settled_players ht hdid hdt
  simp only [settle_players, hd]
  rw [if_neg hdne]
  exact ⟨htot, hbd, hbj j hj⟩

/-- Witness for C3: settling player `P` of the sample room against dealer
`D` is zero-sum at that concrete input. -/
theorem settle_players_zero_sum_witness :
    totalBankroll (settle_players sampleRoom ["P"]).1.users =
      totalBankroll sampleRoom.users ∧
    bank (settle_players sampleRoom ["P"]).1.users "D" =
      bank sampleRoom.users "D" -
        (((settle_players sampleRoom ["P"]).2).map SettleResult.payout).sum ∧
    bank (settle_players sampleRoom ["P"]).1.users "P" =
      bank sampleRoom.users "P" +
        ((((settle_players sampleRoom ["P"]).2).filter
          (fun r => r.player_id == "P")).map SettleResult.payout).sum :=
  settle_players_zero_sum sampleRoom ["P"] "D" "P" rfl (by decide)
    (by decide) (by decide) (by decide) (by decide)

/-- C5: a player already contained in the round's settled set is skipped —
a second `settle_players` call targeting that player changes no bankroll,
appends no result and returns the room unchanged. -/
theorem settle_players_idempotent (room : Room) (pid : String)
    (h : pid ∈ room.settled_players) :
    settle_players room [pid] = (room, []) := by
  unfold settle_players
  cases hd : room.dealer with
  | none => rfl
  | some did =>
    dsimp only
    by_cases hdne : did = ""
    · rw [if_pos hdne]
    · rw [if_neg hdne]
      simp only [settleLoop, if_pos h]
      simp
      rw [← hd]

/-- Witness for C5: re-settling the already-settled player `P` of the
sample room is a no-op. -/
theorem settle_players_idempotent_witness :
    settle_players { sampleRoom with settled_players := ["P"] } ["P"] =
      ({ sampleRoom with settled_players := ["P"] }, []) :=
  settle_players_idempotent { sampleRoom with settled_players := ["P"] } "P"
    (by decide)

/-- A JSON-ish value stored in a room dict: integers and strings are
distinguished (`version`, `updated_at` and `code` need them); every other
payload shape is opaque. -/
inductive Val where
  | int : Int → Val
  | str : String → Val
  | blob : Nat → Val
deriving DecidableEq, Repr

/-- A room payload as stored by `storage_helpers_file.py`: a dict modelled
as an association list read and written at the first matching key. -/
abbrev Dict := List (String × Val)

/-- The `rooms` mapping of the store, keyed by the room's code value. -/
abbrev Store := List (Val × Dict)

/-- Dict lookup `d.get(k)`. -/
def dget (d : Dict) (k : String) : Option Val :=
  match d with
  | [] => none
  | (k1, v) :: t => if k1 = k then some v else dget t k

/-- Dict write `d[k] = v`. -/
def dset (d : Dict) (k : String) (v : Val) : Dict :=
  match d with
  | [] => [(k, v)]
  | (k1, w) :: t => if k1 = k then (k, v) :: t else (k1, w) :: dset t k v

/-- Python's `dict.update(p)`: write every entry of `p` in order. -/
def dupdate (d p : Dict) : Dict :=
  p.foldl (fun acc kv => dset acc kv.1 kv.2) d

/-- Store lookup `rooms.get(code)`. -/
def sget (s : Store) (k : Val) : Option Dict :=
  match s with
  | [] => none
  | (k1, d) :: t => if k1 = k then some d else sget t k

/-- Store write `rooms[code] = payload`. -/
def sset (s : Store) (k : Val) (d : Dict) : Store :=
  match s with
  | [] => [(k, d)]
  | (k1, w) :: t => if k1 = k then (k, d) :: t else (k1, w) :: sset t k d

/-- Python's `int(d.get(k, dflt))` for the version fields.  A stored
non-integer version would raise in Python and is outside the modelled
state space; the theorems assume integer versions. -/
def pyIntD (v : Option Val) (dflt : Int) : Int :=
  match v with
  | some (Val.int n) => n
  | _ => dflt

/-- `patch_room(room, patch)` from storage_helpers_file.py, with the
stored state explicit: fails when the snapshot has no `code`, when no
room (or a falsy empty dict) is stored under that code, or when the
stored version differs from the snapshot's; otherwise shallow-merges the
patch onto the stored payload, bumps the version, sets `updated_at` and
writes the result back. -/
def patch_room (room : Dict) (p : Dict) (now : Int) (store : Store) :
    Bool × Store :=
  match dget room "code" with
  | none => (false, store)
  | some code =>
    match sget store code with
    | none => (false, store)
    | some current =>
      if current = [] then (false, store)
      else if pyIntD (dget current "version") 1 ≠ pyIntD (dget room "version") 1
        then (false, store)
      else
        (true, sset store code
          (dset (dset (dupdate current p) "version"
            (Val.int (pyIntD (dget current "version") 1 + 1)))
            "updated_at" (Val.int now)))

/-- Looking up the written key of a dict returns the written value. -/
theorem dget_dset_self (d : Dict) (k : String) (v : Val) :
    dget (dset d k v) k = some v := by
  induction d with
  | nil => simp [dset, dget]
  | cons kv t ih =>
    obtain ⟨k1, w⟩ := kv
    simp only [dset]
    split_ifs with h
    · simp [dget]
    · simp only [dget]
      rw [if_neg h]
      exact ih

/-- Writing one dict key leaves every other lookup unchanged. -/
theorem dget_dset_ne (d : Dict) (k : String) (v : Val) (j : String)
    (hj : j ≠ k) : dget (dset d k v) j = dget d j := by
  induction d with
  | nil =>
    simp only [dset, dget]
    rw [if_neg (fun h => hj h.symm)]
  | cons kv t ih =>
    obtain ⟨k1, w⟩ := kv
    simp only [dset]
    split_ifs with h
    · subst h
      simp only [dget]
      rw [if_neg (fun h2 => hj h2.symm), if_neg (fun h2 => hj h2.symm)]
    · simp only [dget]
      by_cases h2 : k1 = j
      · rw [if_pos h2, if_pos h2]
      · rw [if_neg h2, if_neg h2]
        exact ih

/-- A key outside a dict's key list looks up to nothing. -/
theorem dget_eq_none (d : Dict) (k : String)
    (h : k ∉ d.map Prod.fst) : dget d k = none := by
  induction d with
  | nil => rfl
  | cons kv t ih =>
    obtain ⟨k1, w⟩ := kv
    simp only [List.map_cons, List.mem_cons] at h
    push_neg at h
    simp only [dget]
    rw [if_neg (fun h2 => h.1 h2.symm)]
    exact ih h.2

/-- Shallow merge: a lookup in `dupdate d p` prefers the patch and falls
back to the base dict (for patches with unique keys, as Python dicts
have). -/
theorem dget_dupdate (p : Dict) : ∀ (d : Dict) (k : String),
    (p.map Prod.fst).Nodup →
    dget (dupdate d p) k = (dget p k).or (dget d k) := by
  induction p with
  | nil =>
    intro d k _
    simp [dupdate, dget, Option.or]
  | cons kv t ih =>
    intro d k hnd
    obtain ⟨k0, v0⟩ := kv
    simp only [List.map_cons, List.nodup_cons] at hnd
    have hstep : dupdate d ((k0, v0) :: t) = dupdate (dset d k0 v0) t := rfl
    rw [hstep, ih (dset d k0 v0) k hnd.2]
    by_cases hk : k0 = k
    · subst hk
      have ht : dget t k0 = none := dget_eq_none t k0 hnd.1
      rw [ht, dget_dset_self]
      simp only [dget, if_pos rfl]
      cases dget d k0 <;> rfl
    · rw [dget_dset_ne d k0 v0 k (fun h => hk h.symm)]
      simp only [dget]
      rw [if_neg hk]

/-- Looking up the written code of a store returns the written payload. -/
theorem sget_sset_self (s : Store) (k : Val) (d : Dict) :
    sget (sset s k d) k = some d := by
  induction s with
  | nil => simp [sset, sget]
  | cons kv t ih =>
    obtain ⟨k1, w⟩ := kv
    simp only [sset]
    split_ifs with h
    · simp [sget]
    · simp only [sget]
      rw [if_neg h]
      exact ih

/-- Writing one room leaves every other room's lookup unchanged. -/
theorem sget_sset_ne (s : Store) (k : Val) (d : Dict) (j : Val)
    (hj : j ≠ k) : sget (sset s k d) j = sget s j := by
  induction s with
  | nil =>
    simp only [sset, sget]
    rw [if_neg (fun h => hj h.symm)]
  | cons kv t ih =>
    obtain ⟨k1, w⟩ := kv
    simp only [sset]
    split_ifs with h
    · subst h
      simp only [sget]
      rw [if_neg (fun h2 => hj h2.symm), if_neg (fun h2 => hj h2.symm)]
    · simp only [sget]
      by_cases h2 : k1 = j
      · rw [if_pos h2, if_pos h2]
      · rw [if_neg h2, if_neg h2]
        exact ih

/-- Dropping a room's entry makes its lookup fail. -/
theorem sget_filter_out (s : Store) (code : Val) :
    sget (s.filter (fun e => !(e.1 == code))) code = none := by
  induction s with
  | nil => rfl
  | cons kv t ih =>
    obtain ⟨k1, d⟩ := kv
    simp only [List.filter_cons]
    by_cases h : k1 = code
    · rw [if_neg (by simp [h])]
      exact ih
    · rw [if_pos (by simp [h])]
      simp only [sget]
      rw [if_neg h]
      exact ih

/-- C4: `patch_room` succeeds exactly when the stored version equals the
snapshot's version; on success it stores the shallow merge of the patch
onto the stored payload with the version incremented and `updated_at`
set, leaving every other room untouched; on version mismatch, and on a
missing room, it returns false and leaves the store unchanged. -/
theorem patch_room_spec (room p : Dict) (now : Int) (store : Store)
    (code : Val) (cur : Dict) (ev v : Int) (c : Val) (k : String)
    (hc : dget room "code" = some code)
    (hev : dget room "version" = some (Val.int ev))
    (hcur : sget store code = some cur)
    (hv : dget cur "version" = some (Val.int v))
    (hkp : (p.map Prod.fst).Nodup)
    (hcc : c ≠ code) (hk1 : k ≠ "version") (hk2 : k ≠ "updated_at") :
    ((patch_room room p now store).1 = true ↔ ev = v) ∧
    (patch_room room p now store).2 =
      (if ev = v then
        sset store code
          (dset (dset (dupdate cur p) "version" (Val.int (v + 1)))
            "updated_at" (Val.int now))
      else store) ∧
    sget (sset store code
        (dset (dset (dupdate cur p) "version" (Val.int (v + 1)))
          "updated_at" (Val.int now))) code =
      some (dset (dset (dupdate cur p) "version" (Val.int (v + 1)))
        "updated_at" (Val.int now)) ∧
    sget (patch_room room p now store).2 c = sget store c ∧
    dget (dset (dset (dupdate cur p) "version" (Val.int (v + 1)))
        "updated_at" (Val.int now)) "version" = some (Val.int (v + 1)) ∧
    dget (dset (dset (dupdate cur p) "version" (Val.int (v + 1)))
        "updated_at" (Val.int now)) "updated_at" = some (Val.int now) ∧
    dget (dset (dset (dupdate cur p) "version" (Val.int (v + 1)))
        "updated_at" (Val.int now)) k = (dget p k).or (dget cur k) ∧
    patch_room room p now (store.filter (fun e => !(e.1 == code))) =
      (false, store.filter (fun e => !(e.1 == code))) := by
  have hcne : cur ≠ [] := by
    intro h
    rw [h] at hv
    simp [dget] at hv
  have hmerge1 : dget (dset (dset (dupdate cur p) "version" (Val.int (v + 1)))
      "updated_at" (Val.int now)) "version" = some (Val.int (v + 1)) := by
    rw [dget_dset_ne _ _ _ _ (by decide), dget_dset_self]
  have hmerge2 : dget (dset (dset (dupdate cur p) "version" (Val.int (v + 1)))
      "updated_at" (Val.int now)) "updated_at" = some (Val.int now) := by
    rw [dget_dset_self]
  have hmerge3 : dget (dset (dset (dupdate cur p) "version" (Val.int (v + 1)))
      "updated_at" (Val.int now)) k = (dget p k).or (dget cur k) := by
    rw [dget_dset_ne _ _ _ _ hk2, dget_dset_ne _ _ _ _ hk1,
      dget_dupdate p cur k hkp]
  have hmiss : patch_room room p now
      (store.filter (fun e => !(e.1 == code))) =
      (false, store.filter (fun e => !(e.1 == code))) := by
    unfold patch_room
    rw [hc]
    dsimp only
    rw [sget_filter_out store code]
  have hpr : patch_room room p now store =
      (if ev = v then
        (true, sset store code
          (dset (dset (dupdate cur p) "version" (Val.int (v + 1)))
            "updated_at" (Val.int now)))
      else (false, store)) := by
    unfold patch_room
    rw [hc]
    dsimp only
    rw [hcur]
    dsimp only
    rw [if_neg hcne, hv, hev]
    simp only [pyIntD]
    by_cases hvev : ev = v
    · rw [if_neg (by omega), if_pos hvev]
    · rw [if_pos (by omega), if_neg hvev]
  refine ⟨?_, ?_, sget_sset_self _ _ _, ?_, hmerge1, hmerge2, hmerge3, hmiss⟩
  · rw [hpr]
    by_cases hvev : ev = v
    · simp [hvev]
    · simp [hvev]
  · rw [hpr]
    by_cases hvev : ev = v
    · rw [if_pos hvev, if_pos hvev]
    · rw [if_neg hvev, if_neg hvev]
  · rw [hpr]
    by_cases hvev : ev = v
    · rw [if_pos hvev]
      exact sget_sset_ne _ _ _ _ hcc
    · rw [if_neg hvev]

/-- Witness for C4 at a concrete snapshot, patch and store. -/
theorem patch_room_spec_witness :
    ((patch_room [("code", Val.str "R"), ("version", Val.int 3)]
        [("bet", Val.int 5)] 99
        [(Val.str "R",
          [("code", Val.str "R"), ("version", Val.int 3),
            ("bet", Val.int 2)])]).1 = true ↔ (3 : Int) = 3) ∧
    (patch_room [("code", Val.str "R"), ("version", Val.int 3)]
        [("bet", Val.int 5)] 99
        [(Val.str "R",
          [("code", Val.str "R"), ("version", Val.int 3),
            ("bet", Val.int 2)])]).2 =
      (if (3 : Int) = 3 then
        sset [(Val.str "R",
            [("code", Val.str "R"), ("version", Val.int 3),
              ("bet", Val.int 2)])] (Val.str "R")
          (dset (dset (dupdate
              [("code", Val.str "R"), ("version", Val.int 3),
                ("bet", Val.int 2)] [("bet", Val.int 5)])
            "version" (Val.int (3 + 1))) "updated_at" (Val.int 99))
      else [(Val.str "R",
        [("code", Val.str "R"), ("version", Val.int 3),
          ("bet", Val.int 2)])]) ∧
    sget (sset [(Val.str "R",
          [("code", Val.str "R"), ("version", Val.int 3),
            ("bet", Val.int 2)])] (Val.str "R")
        (dset (dset (dupdate
            [("code", Val.str "R"), ("version", Val.int 3),
              ("bet", Val.int 2)] [("bet", Val.int 5)])
          "version" (Val.int (3 + 1))) "updated_at" (Val.int 99)))
        (Val.str "R") =
      some (dset (dset (dupdate
          [("code", Val.str "R"), ("version", Val.int 3),
            ("bet", Val.int 2)] [("bet", Val.int 5)])
        "version" (Val.int (3 + 1))) "updated_at" (Val.int 99)) ∧
    sget (patch_room [("code", Val.str "R"), ("version", Val.int 3)]
        [("bet", Val.int 5)] 99
        [(Val.str "R",
          [("code", Val.str "R"), ("version", Val.int 3),
            ("bet", Val.int 2)])]).2 (Val.str "X") =
      sget [(Val.str "R",
        [("code", Val.str "R"), ("version", Val.int 3),
          ("bet", Val.int 2)])] (Val.str "X") ∧
    dget (dset (dset (dupdate
        [("code", Val.str "R"), ("version", Val.int 3),
          ("bet", Val.int 2)] [("bet", Val.int 5)])
        "version" (Val.int (3 + 1))) "updated_at" (Val.int 99)) "version" =
      some (Val.int (3 + 1)) ∧
    dget (dset (dset (dupdate
        [("code", Val.str "R"), ("version", Val.int 3),
          ("bet", Val.int 2)] [("bet", Val.int 5)])
        "version" (Val.int (3 + 1))) "updated_at" (Val.int 99)) "updated_at" =
      some (Val.int 99) ∧
    dget (dset (dset (dupdate
        [("code", Val.str "R"), ("version", Val.int 3),
          ("bet", Val.int 2)] [("bet", Val.int 5)])
        "version" (Val.int (3 + 1))) "updated_at" (Val.int 99)) "bet" =
      (dget [("bet", Val.int 5)] "bet").or
        (dget [("code", Val.str "R"), ("version", Val.int 3),
          ("bet", Val.int 2)] "bet") ∧
    patch_room [("code", Val.str "R"), ("version", Val.int 3)]
        [("bet", Val.int 5)] 99
        (List.filter (fun e => !(e.1 == Val.str "R"))
          [(Val.str "R",
            [("code", Val.str "R"), ("version", Val.int 3),
              ("bet", Val.int 2)])]) =
      (false, List.filter (fun e => !(e.1 == Val.str "R"))
        [(Val.str "R",
          [("code", Val.str "R"), ("version", Val.int 3),
            ("bet", Val.int 2)])]) :=
  patch_room_spec [("code", Val.str "R"), ("version", Val.int 3)]
    [("bet", Val.int 5)] 99
    [(Val.str "R",
      [("code", Val.str "R"), ("version", Val.int 3), ("bet", Val.int 2)])]
    (Val.str "R")
    [("code", Val.str "R"), ("version", Val.int 3), ("bet", Val.int 2)]
    3 3 (Val.str "X") "bet" (by decide) (by decide) (by decide) (by decide)
    (by decide) (by decide) (by decide) (by decide)

/-- What one rendered participant line discloses to a viewer: the actual
cards when shown face up, the face-down card count when hidden, the
bankroll when printed, and the Pok badge. -/
structure ViewInfo where
  cards : Option (List Nat)
  count : Option Nat
  bankroll : Option Int
  pokBadge : Bool
deriving DecidableEq, Repr

/-- The participant line rendered to `viewer` for `(uid, u)`, per status
(app.py: lobby lines 419-425, player action lines 491-513, dealer action
lines 527-553, settlement lines 608-616).  `none` when that participant
is not rendered at all in that phase. -/
def renderParticipant (room : Room) (viewer uid : String) (u : User) :
    Option ViewInfo :=
  if room.status = "lobby" then
    some { cards := none, count := none, bankroll := some u.bankroll,
           pokBadge := false }
  else if room.status = "player_action" then
    if room.dealer = some uid then
      if viewer = uid then
        some { cards := some u.hand, count := none, bankroll := none,
               pokBadge := false }
      else
        some { cards := none, count := some u.hand.length, bankroll := none,
               pokBadge := false }
    else if uid ∈ room.order then
      if uid = viewer then
        some { cards := some u.hand, count := none, bankroll := none,
               pokBadge := if u.hand.length = 2 then (is_pok u.hand).1 else false }
      else
        some { cards := none, count := some u.hand.length, bankroll := none,
               pokBadge := if u.hand.length = 2 then (is_pok u.hand).1 else false }
    else none
  else if room.status = "dealer_action" then
    if room.dealer = some uid then
      if viewer = uid then
        some { cards := some u.hand, count := none, bankroll := none,
               pokBadge := if u.hand.length = 2 then (is_pok u.hand).1 else false }
      else
        some { cards := none, count := some u.hand.length, bankroll := none,
               pokBadge := false }
    else if uid ∈ room.order then
      if uid = viewer then
        some { cards := some u.hand, count := none, bankroll := none,
               pokBadge := if u.hand.length = 2 then (is_pok u.hand).1 else false }
      else
        some { cards := none, count := some u.hand.length, bankroll := none,
               pokBadge := if u.hand.length = 2 then (is_pok u.hand).1 else false }
    else none
  else if room.status = "settlement" then
    if room.dealer = some uid ∨ uid ∈ room.order then
      some { cards := some u.hand, count := none, bankroll := none,
             pokBadge := false }
    else none
  else none

/-- Counterexample to C6: in the lobby the rendering shown to viewer `P`
prints the dealer `D`'s bankroll (1000) although `D` is another
participant and the status is not settlement — so "never displays the
other participant's bankroll" fails on the code. -/
theorem render_bankroll_leak :
    renderParticipant { sampleRoom with status := "lobby" } "P" "D"
        dealerUser =
      some { cards := none, count := none, bankroll := some 1000,
             pokBadge := false } ∧
    "D" ≠ "P" ∧
    ({ sampleRoom with status := "lobby" } : Room).status ≠ "settlement" := by
  refine ⟨rfl, by decide, by decide⟩

/-- C6 amended: bankrolls are displayed only in the lobby, where every
participant's bankroll (including other participants') is shown to every
viewer; during player action and dealer action no bankroll is shown, the
viewer's own hand is rendered face up and every other rendered
participant's hand only as a face-down card count (alongside an
acted/Pok indicator); at settlement every rendered hand is face up and
no bankroll is shown. -/
theorem render_redaction_amended (room : Room) (viewer uid : String)
    (u : User) (vi : ViewInfo)
    (hr : renderParticipant room viewer uid u = some vi) :
    vi.bankroll = (if room.status = "lobby" then some u.bankroll else none) ∧
    vi.cards = (if room.status = "lobby" then none
      else if room.status = "settlement" then some u.hand
      else if uid = viewer then some u.hand else none) ∧
    vi.count = (if (room.status = "player_action" ∨
        room.status = "dealer_action") ∧ uid ≠ viewer
      then some u.hand.length else none) := by
  unfold renderParticipant at hr
  split_ifs at hr
  all_goals try exact absurd hr.symm (Option.some_ne_none _)
  all_goals obtain rfl := (Option.some.inj hr).symm
  all_goals clear hr
  all_goals refine ⟨?_, ?_, ?_⟩ <;> split_ifs <;> (try rfl) <;> simp_all

/-- Witness for the amended C6 at a concrete room: viewer `P` sees the
dealer's hand only as a one-card count with no bankroll. -/
theorem render_redaction_amended_witness :
    ({ cards := none, count := some 1, bankroll := none,
        pokBadge := false } : ViewInfo).bankroll =
      (if sampleRoom.status = "lobby" then some dealerUser.bankroll
       else none) ∧
    ({ cards := none, count := some 1, bankroll := none,
        pokBadge := false } : ViewInfo).cards =
      (if sampleRoom.status = "lobby" then none
       else if sampleRoom.status = "settlement" then some dealerUser.hand
       else if "D" = "P" then some dealerUser.hand else none) ∧
    ({ cards := none, count := some 1, bankroll := none,
        pokBadge := false } : ViewInfo).count =
      (if (sampleRoom.status = "player_action" ∨
          sampleRoom.status = "dealer_action") ∧ "D" ≠ "P"
       then some dealerUser.hand.length else none) :=
  render_redaction_amended sampleRoom "P" "D" dealerUser
    { cards := none, count := some 1, bankroll := none, pokBadge := false }
    (by decide)

end Pokdeng
